import Mathlib

/-
Verification of the TempConv architecture (src/src/model/tempcnn.py).

The Python module is embedded shallowly:
  * `get_sinusoid_encoding_table` and its inner helpers `cal_angle` /
    `get_posi_angle_vec` become real-valued list functions;
  * the layer sequences built by `get_decoder` and by the two loops in
    `TempConv.__init__` become lists over a pure `Layer` type that records
    exactly the architectural data the constructors receive
    (widths, kernel size, padding);
  * `TempConv.__init__` becomes `mkTempConv`, returning `Except` because the
    Python constructor raises `AttributeError` when `nfc` is `None`
    (`self.nfc.insert` on `None`);
  * `TempConv.forward` becomes `forward`, evaluating the layer lists on
    shape-carrying real tensors; layer parameters (weights, biases,
    normalization statistics), which PyTorch initializes randomly and which
    training mutates, are supplied by oracles `Nat → LayerParams`, one stream
    per stack; normalization is evaluated with stored statistics
    (inference-mode semantics).  PyTorch runtime shape errors (embedding index
    out of bounds, channel/feature mismatches) become `Except.error` values.
-/

/-- The `positions` argument of `get_sinusoid_encoding_table`:
`int or list of integer, if int range(positions)`. -/
inductive PosArg where
  | int (n : Nat)
  | list (l : List Int)
deriving DecidableEq

/-- `if isinstance(positions, int): positions = list(range(positions))`. -/
def PosArg.toList : PosArg → List Int
  | .int n => (List.range n).map Int.ofNat
  | .list l => l

/-- `cal_angle(position, hid_idx)` in `get_sinusoid_encoding_table`:
`position / np.power(T, 2 * (hid_idx // 2) / d_hid)`.  Integer division
`hid_idx // 2` is `Nat` division; the outer division and the power are
floating point, modelled over `ℝ` (real power `T ^ e` is `Real.rpow`). -/
noncomputable def cal_angle (T : ℝ) (d_hid : Nat) (position : Int) (hid_idx : Nat) : ℝ :=
  (position : ℝ) / T ^ (((2 * (hid_idx / 2) : Nat) : ℝ) / (d_hid : ℝ))

/-- `get_posi_angle_vec(position)`: `[cal_angle(position, hid_j) for hid_j in range(d_hid)]`. -/
noncomputable def get_posi_angle_vec (T : ℝ) (d_hid : Nat) (position : Int) : List ℝ :=
  (List.range d_hid).map (cal_angle T d_hid position)

/-- `sinusoid_table = np.array([get_posi_angle_vec(pos_i) for pos_i in positions])`. -/
noncomputable def sinusoid_table_raw (T : ℝ) (d_hid : Nat) (positions : List Int) : List (List ℝ) :=
  positions.map (get_posi_angle_vec T d_hid)

/-- The two slice assignments
`sinusoid_table[:, 0::2] = np.sin(...)` and `sinusoid_table[:, 1::2] = np.cos(...)`:
columnwise by parity of the column index, `sin` on even columns and `cos` on odd ones. -/
noncomputable def apply_sin_cos (row : List ℝ) : List ℝ :=
  row.mapIdx (fun j x => if j % 2 = 0 then Real.sin x else Real.cos x)

/-- `get_sinusoid_encoding_table(positions, d_hid, T=1000)` as a list of rows.
The trailing `torch.FloatTensor(...)`/`.cuda()` device branch returns the same
numeric table either way and is not modelled. -/
noncomputable def get_sinusoid_encoding_table (positions : PosArg) (d_hid : Nat) (T : ℝ) :
    List (List ℝ) :=
  (sinusoid_table_raw T d_hid positions.toList).map apply_sin_cos

/-- One PyTorch layer as constructed by this module, reduced to the
architectural data passed to its constructor.  `conv1d` records
`(in_channels, out_channels, kernel_size, padding)`. -/
inductive Layer where
  | linear (din dout : Nat)
  | batchNorm1d (n : Nat)
  | relu
  | conv1d (cin cout ksize pad : Nat)
deriving DecidableEq

/-- `get_decoder(n_neurons)` (tempcnn.py lines 36-52): a loop over
`range(len(n_neurons)-1)` appending `Linear(n_neurons[i], n_neurons[i+1])` and,
when `i < len(n_neurons) - 2`, also `BatchNorm1d(n_neurons[i+1])` and `ReLU`. -/
def get_decoder (n_neurons : List Nat) : List Layer :=
  (List.range (n_neurons.length - 1)).foldl
    (fun layers i =>
      let layers := layers ++ [Layer.linear (n_neurons.getD i 0) (n_neurons.getD (i + 1) 0)]
      if i < n_neurons.length - 2 then
        layers ++ [Layer.batchNorm1d (n_neurons.getD (i + 1) 0), Layer.relu]
      else
        layers)
    []

/-- The convolution-stack loop of `TempConv.__init__` (lines 73-80): for every
adjacent pair of `self.nker` (already with `input_size` inserted at position 0)
append `Conv1d(.., kernel_size=3, padding=1)`, `BatchNorm1d`, `ReLU`. -/
def conv_stack (widths : List Nat) : List Layer :=
  (List.range (widths.length - 1)).foldl
    (fun layers i =>
      layers ++ [Layer.conv1d (widths.getD i 0) (widths.getD (i + 1) 0) 3 1,
                 Layer.batchNorm1d (widths.getD (i + 1) 0), Layer.relu])
    []

/-- The fully-connected-stack loop of `TempConv.__init__` (lines 84-90): for
every adjacent pair of `self.nfc` (already with the flattened width inserted at
position 0) append `Linear`, `BatchNorm1d`, `ReLU`. -/
def lin_stack (widths : List Nat) : List Layer :=
  (List.range (widths.length - 1)).foldl
    (fun layers i =>
      layers ++ [Layer.linear (widths.getD i 0) (widths.getD (i + 1) 0),
                 Layer.batchNorm1d (widths.getD (i + 1) 0), Layer.relu])
    []

/-- The frozen embedding `nn.Embedding.from_pretrained(table, freeze=True)`:
a weight matrix with `rows` embeddings of dimension `dim`. -/
structure EmbTable where
  rows : Nat
  dim : Nat
  w : Nat → Nat → ℝ

/-- Conversion of a list-of-rows table into the embedding weight matrix. -/
noncomputable def tableOfList (t : List (List ℝ)) : EmbTable :=
  ⟨t.length, (t.headD []).length, fun i j => (t.getD i []).getD j 0⟩

/-- The one exception `TempConv.__init__` can raise: with `nfc=None` the line
`self.nfc.insert(0, self.nker[-1] * seq_len)` raises
`AttributeError: 'NoneType' object has no attribute 'insert'`. -/
inductive BuildError where
  | noneNfcInsert
deriving DecidableEq

/-- The state a constructed `TempConv` holds: the mutated width copies
`self.nker` / `self.nfc`, the name string, the three layer sequences and the
optional frozen position-encoding table. -/
structure TempConvModel where
  input_size : Nat
  seq_len : Nat
  name : String
  nker : List Nat
  nfc : List Nat
  decoder : List Layer
  conv1d : List Layer
  linear : List Layer
  position_enc : Option EmbTable

/-- `TempConv.__init__(input_size, nker, seq_len, nfc, mlp4, positions=None)`
(tempcnn.py lines 59-98), following the source order: deep-copy `nker`/`nfc`,
build the name from the pre-insertion copies (`'FC'` part only when `nfc` is
not `None`), build the decoder from `mlp4`, insert `input_size` into the
`nker` copy and build the convolution stack, insert `self.nker[-1] * seq_len`
into the `nfc` copy (an `AttributeError` when `nfc` is `None`) and build the
fully-connected stack, and finally the frozen position-encoding table when
`positions` is given.  No argument validation of any kind is performed. -/
noncomputable def mkTempConv (input_size : Nat) (nker : List Nat) (seq_len : Nat)
    (nfc : Option (List Nat)) (mlp4 : List Nat) (positions : Option PosArg) :
    Except BuildError TempConvModel :=
  let name := "TempCNN_" ++ "|".intercalate (nker.map toString)
  let decoder := get_decoder mlp4
  let name := match nfc with
    | some l => name ++ "FC" ++ "|".intercalate (l.map toString)
    | none => name
  let nker' := input_size :: nker
  let conv1d := conv_stack nker'
  match nfc with
  | none => .error .noneNfcInsert
  | some l =>
    let nfc' := (nker'.getLastD 0 * seq_len) :: l
    let lin := lin_stack nfc'
    let position_enc :=
      positions.map (fun p => tableOfList (get_sinusoid_encoding_table p input_size 1000))
    .ok ⟨input_size, seq_len, name, nker', nfc', decoder, conv1d, lin, position_enc⟩

/-- A 3-axis tensor in the input layout (batch, time, channel):
explicit extents plus a total entry function indexed (batch, time, channel). -/
structure T3 where
  b : Nat
  t : Nat
  c : Nat
  entry : Nat → Nat → Nat → ℝ

/-- A 3-axis tensor in the convolution layout (batch, channel, time),
the layout produced by `permute(0, 2, 1)`. -/
structure Tbct where
  b : Nat
  c : Nat
  t : Nat
  entry : Nat → Nat → Nat → ℝ

/-- A 2-axis tensor (batch, feature). -/
structure T2 where
  b : Nat
  f : Nat
  entry : Nat → Nat → ℝ

/-- Runtime errors of the forward pass: an embedding lookup index outside the
table (`IndexError` in PyTorch) or any other tensor-shape mismatch. -/
inductive FwdError where
  | indexOutOfBounds
  | shapeMismatch
deriving DecidableEq

/-- Parameters of one layer, supplied externally (PyTorch initializes them
randomly; training mutates them; both are outside this core). -/
structure LayerParams where
  w2 : Nat → Nat → ℝ
  w3 : Nat → Nat → Nat → ℝ
  bias : Nat → ℝ
  gamma : Nat → ℝ
  beta : Nat → ℝ
  mean : Nat → ℝ
  vari : Nat → ℝ

/-- An all-zero parameter record, used to instantiate oracles concretely. -/
def defaultParams : LayerParams :=
  ⟨fun _ _ => 0, fun _ _ _ => 0, fun _ => 0, fun _ => 0, fun _ => 0, fun _ => 0, fun _ => 0⟩

/-- Whether every index of `src_pos = torch.arange(1, seq_len + 1)` is a valid
row index of an embedding table with `rows` rows. -/
def srcPosInBounds (seqLen rows : Nat) : Bool :=
  ((List.range seqLen).map (· + 1)).all (fun i => decide (i < rows))

/-- The position-encoding step of `TempConv.forward` (lines 101-105):
`enc_output = input + self.position_enc(src_pos)` with
`src_pos = arange(1, seq_len+1)` expanded over the batch, or
`enc_output = input` when position encoding is disabled.  The embedding lookup
fails when an index reaches past the table; the addition broadcasts a size-1
trailing dimension (NumPy/PyTorch broadcasting) and fails otherwise on
mismatch. -/
noncomputable def encOutput (enc : Option EmbTable) (x : T3) : Except FwdError T3 :=
  match enc with
  | none => .ok x
  | some tbl =>
    if srcPosInBounds x.t tbl.rows then
      if x.c = tbl.dim ∨ x.c = 1 ∨ tbl.dim = 1 then
        .ok ⟨x.b, x.t, max x.c tbl.dim, fun b t c =>
          x.entry b t (if x.c = 1 then 0 else c) + tbl.w (t + 1) (if tbl.dim = 1 then 0 else c)⟩
      else .error .shapeMismatch
    else .error .indexOutOfBounds

/-- `enc_output.permute(0, 2, 1)`: swap the last two axes, moving to the
(batch, channel, time) layout. -/
def permute021 (x : T3) : Tbct :=
  ⟨x.b, x.c, x.t, fun b c t => x.entry b t c⟩

/-- `out.view(out.shape[0], -1)`: row-major flattening of (channel, time). -/
def flatten (x : Tbct) : T2 :=
  ⟨x.b, x.c * x.t, fun b f => x.entry b (f / x.t) (f % x.t)⟩

/-- Evaluation of one layer on a 3-axis (batch, channel, time) tensor.
`conv1d` is a stride-1 cross-correlation with zero padding, output length
`t + 2*pad + 1 - ksize` (PyTorch raises when the padded length is shorter
than the kernel).  `batchNorm1d` on 3-axis input normalizes each channel with
its stored statistics (`eps = 1e-5`).  `linear` layers never occur in the
convolution stack. -/
noncomputable def evalLayer3 (p : LayerParams) (l : Layer) (x : Tbct) : Except FwdError Tbct :=
  match l with
  | .conv1d cin cout ksize pad =>
    if x.c = cin ∧ ksize ≤ x.t + 2 * pad then
      .ok ⟨x.b, cout, x.t + 2 * pad + 1 - ksize, fun b co t =>
        p.bias co + ∑ ci ∈ Finset.range cin, ∑ dk ∈ Finset.range ksize,
          p.w3 co ci dk *
            (if pad ≤ t + dk ∧ t + dk < pad + x.t then x.entry b ci (t + dk - pad) else 0)⟩
    else .error .shapeMismatch
  | .batchNorm1d n =>
    if x.c = n then
      .ok ⟨x.b, x.c, x.t, fun b c t =>
        (x.entry b c t - p.mean c) / Real.sqrt (p.vari c + 1 / 100000) * p.gamma c + p.beta c⟩
    else .error .shapeMismatch
  | .relu => .ok ⟨x.b, x.c, x.t, fun b c t => max (x.entry b c t) 0⟩
  | .linear _ _ => .error .shapeMismatch

/-- Evaluation of one layer on a 2-axis (batch, feature) tensor.  `linear`
requires the incoming feature width to equal `din`; `batchNorm1d` normalizes
each feature with its stored statistics; `conv1d` never occurs after
flattening. -/
noncomputable def evalLayer2 (p : LayerParams) (l : Layer) (x : T2) : Except FwdError T2 :=
  match l with
  | .linear din dout =>
    if x.f = din then
      .ok ⟨x.b, dout, fun b o =>
        (∑ k ∈ Finset.range din, p.w2 o k * x.entry b k) + p.bias o⟩
    else .error .shapeMismatch
  | .batchNorm1d n =>
    if x.f = n then
      .ok ⟨x.b, x.f, fun b f =>
        (x.entry b f - p.mean f) / Real.sqrt (p.vari f + 1 / 100000) * p.gamma f + p.beta f⟩
    else .error .shapeMismatch
  | .relu => .ok ⟨x.b, x.f, fun b f => max (x.entry b f) 0⟩
  | .conv1d _ _ _ _ => .error .shapeMismatch

/-- `nn.Sequential` evaluation on 3-axis tensors; the oracle `θ` supplies the
parameters of the layer at each position. -/
noncomputable def evalSeq3 (θ : Nat → LayerParams) (ls : List Layer) (x : Tbct) :
    Except FwdError Tbct :=
  match ls with
  | [] => .ok x
  | l :: ls' =>
    match evalLayer3 (θ 0) l x with
    | .error e => .error e
    | .ok y => evalSeq3 (fun n => θ (n + 1)) ls' y

/-- `nn.Sequential` evaluation on 2-axis tensors. -/
noncomputable def evalSeq2 (θ : Nat → LayerParams) (ls : List Layer) (x : T2) :
    Except FwdError T2 :=
  match ls with
  | [] => .ok x
  | l :: ls' =>
    match evalLayer2 (θ 0) l x with
    | .error e => .error e
    | .ok y => evalSeq2 (fun n => θ (n + 1)) ls' y

/-- The tail of `TempConv.forward` after the position-encoding step
(lines 107-112): permute, convolution stack, flatten, fully-connected stack,
decoder. -/
noncomputable def forwardRest (θc θl θd : Nat → LayerParams) (m : TempConvModel) (y : T3) :
    Except FwdError T2 :=
  match evalSeq3 θc m.conv1d (permute021 y) with
  | .error e => .error e
  | .ok out3 =>
    match evalSeq2 θl m.linear (flatten out3) with
    | .error e => .error e
    | .ok out2 => evalSeq2 θd m.decoder out2

/-- `TempConv.forward(input)` (lines 100-112).  The batch size and sequence
length are read off the input tensor itself (`sz_b, seq_len, _ = input.shape`);
the configured `self.seq_len` is not consulted. -/
noncomputable def forward (θc θl θd : Nat → LayerParams) (m : TempConvModel) (x : T3) :
    Except FwdError T2 :=
  match encOutput m.position_enc x with
  | .error e => .error e
  | .ok y => forwardRest θc θl θd m y

/-- Folding accumulator-append over a list collects the generated chunks. -/
theorem foldl_append_eq_flatMap {α β : Type} (g : α → List β) :
    ∀ (l : List α) (init : List β),
      l.foldl (fun acc i => acc ++ g i) init = init ++ l.flatMap g := by
  intro l
  induction l with
  | nil => intro init; simp
  | cons a l ih => intro init; simp [ih, List.append_assoc]

/-- The decoder loop, written as one chunk per transform index. -/
theorem get_decoder_eq_flatMap (ns : List Nat) :
    get_decoder ns = (List.range (ns.length - 1)).flatMap (fun i =>
      Layer.linear (ns.getD i 0) (ns.getD (i + 1) 0) ::
        (if i < ns.length - 2 then [Layer.batchNorm1d (ns.getD (i + 1) 0), Layer.relu]
         else [])) := by
  have hbody : (fun (layers : List Layer) i =>
      let layers := layers ++ [Layer.linear (ns.getD i 0) (ns.getD (i + 1) 0)]
      if i < ns.length - 2 then
        layers ++ [Layer.batchNorm1d (ns.getD (i + 1) 0), Layer.relu]
      else layers) =
      (fun (acc : List Layer) i => acc ++
        (Layer.linear (ns.getD i 0) (ns.getD (i + 1) 0) ::
          (if i < ns.length - 2 then [Layer.batchNorm1d (ns.getD (i + 1) 0), Layer.relu]
           else []))) := by
    funext acc i
    by_cases h : i < ns.length - 2 <;> simp [h]
  rw [get_decoder, hbody, foldl_append_eq_flatMap]
  simp

/-- The convolution-stack loop, written as one chunk per transform index. -/
theorem conv_stack_eq_flatMap (ws : List Nat) :
    conv_stack ws = (List.range (ws.length - 1)).flatMap (fun i =>
      [Layer.conv1d (ws.getD i 0) (ws.getD (i + 1) 0) 3 1,
       Layer.batchNorm1d (ws.getD (i + 1) 0), Layer.relu]) := by
  rw [conv_stack, foldl_append_eq_flatMap]
  simp

/-- The fully-connected-stack loop, written as one chunk per transform index. -/
theorem lin_stack_eq_flatMap (ws : List Nat) :
    lin_stack ws = (List.range (ws.length - 1)).flatMap (fun i =>
      [Layer.linear (ws.getD i 0) (ws.getD (i + 1) 0),
       Layer.batchNorm1d (ws.getD (i + 1) 0), Layer.relu]) := by
  rw [lin_stack, foldl_append_eq_flatMap]
  simp

/-- Unfolding one transform of the decoder. -/
theorem get_decoder_cons (w1 w2 : Nat) (rest : List Nat) :
    get_decoder (w1 :: w2 :: rest) =
      (Layer.linear w1 w2 ::
        (if 0 < rest.length then [Layer.batchNorm1d w2, Layer.relu] else [])) ++
      get_decoder (w2 :: rest) := by
  rw [get_decoder_eq_flatMap, get_decoder_eq_flatMap]
  have h1 : (w1 :: w2 :: rest).length - 1 = rest.length + 1 := by simp
  have h2 : (w2 :: rest).length - 1 = rest.length := by simp
  rw [h1, h2, List.range_succ_eq_map]
  simp only [List.flatMap_cons, List.flatMap_map]
  congr 1
  apply List.flatMap_congr
  intro i _
  have hc : (i + 1 < (w1 :: w2 :: rest).length - 2) ↔ (i < (w2 :: rest).length - 2) := by
    simp; omega
  simp only [List.getD_cons_succ]
  rw [if_congr hc rfl rfl]

/-- Unfolding one transform of the convolution stack. -/
theorem conv_stack_cons (w1 w2 : Nat) (rest : List Nat) :
    conv_stack (w1 :: w2 :: rest) =
      [Layer.conv1d w1 w2 3 1, Layer.batchNorm1d w2, Layer.relu] ++ conv_stack (w2 :: rest) := by
  rw [conv_stack_eq_flatMap, conv_stack_eq_flatMap]
  have h1 : (w1 :: w2 :: rest).length - 1 = rest.length + 1 := by simp
  have h2 : (w2 :: rest).length - 1 = rest.length := by simp
  rw [h1, h2, List.range_succ_eq_map]
  simp only [List.flatMap_cons, List.flatMap_map]
  congr 1

/-- Unfolding one transform of the fully-connected stack. -/
theorem lin_stack_cons (w1 w2 : Nat) (rest : List Nat) :
    lin_stack (w1 :: w2 :: rest) =
      [Layer.linear w1 w2, Layer.batchNorm1d w2, Layer.relu] ++ lin_stack (w2 :: rest) := by
  rw [lin_stack_eq_flatMap, lin_stack_eq_flatMap]
  have h1 : (w1 :: w2 :: rest).length - 1 = rest.length + 1 := by simp
  have h2 : (w2 :: rest).length - 1 = rest.length := by simp
  rw [h1, h2, List.range_succ_eq_map]
  simp only [List.flatMap_cons, List.flatMap_map]
  congr 1

/-- Sequential evaluation distributes over list append (3-axis case). -/
theorem evalSeq3_append (a : List Layer) :
    ∀ (θ : Nat → LayerParams) (b : List Layer) (x : Tbct),
      evalSeq3 θ (a ++ b) x =
        match evalSeq3 θ a x with
        | .error e => .error e
        | .ok y => evalSeq3 (fun n => θ (n + a.length)) b y := by
  induction a with
  | nil => intro θ b x; simp [evalSeq3]
  | cons l ls ih =>
    intro θ b x
    cases h : evalLayer3 (θ 0) l x with
    | error e => simp [evalSeq3, List.cons_append, h]
    | ok y =>
      have h1 : evalSeq3 θ ((l :: ls) ++ b) x = evalSeq3 (fun n => θ (n + 1)) (ls ++ b) y := by
        simp only [List.cons_append, evalSeq3]
        rw [h]
        rfl
      have h2 : evalSeq3 θ (l :: ls) x = evalSeq3 (fun n => θ (n + 1)) ls y := by
        simp only [evalSeq3]
        rw [h]
      rw [h1, h2, ih]
      cases evalSeq3 (fun n => θ (n + 1)) ls y with
      | error e => rfl
      | ok z => rfl

/-- Sequential evaluation distributes over list append (2-axis case). -/
theorem evalSeq2_append (a : List Layer) :
    ∀ (θ : Nat → LayerParams) (b : List Layer) (x : T2),
      evalSeq2 θ (a ++ b) x =
        match evalSeq2 θ a x with
        | .error e => .error e
        | .ok y => evalSeq2 (fun n => θ (n + a.length)) b y := by
  induction a with
  | nil => intro θ b x; simp [evalSeq2]
  | cons l ls ih =>
    intro θ b x
    cases h : evalLayer2 (θ 0) l x with
    | error e => simp [evalSeq2, List.cons_append, h]
    | ok y =>
      have h1 : evalSeq2 θ ((l :: ls) ++ b) x = evalSeq2 (fun n => θ (n + 1)) (ls ++ b) y := by
        simp only [List.cons_append, evalSeq2]
        rw [h]
        rfl
      have h2 : evalSeq2 θ (l :: ls) x = evalSeq2 (fun n => θ (n + 1)) ls y := by
        simp only [evalSeq2]
        rw [h]
      rw [h1, h2, ih]
      cases evalSeq2 (fun n => θ (n + 1)) ls y with
      | error e => rfl
      | ok z => rfl

/-- A matching convolution evaluates to a tensor of `cout` channels and the
padded output length. -/
theorem evalLayer3_conv_ok (p : LayerParams) (cin cout ksize pad : Nat) (x : Tbct)
    (hc : x.c = cin) (hk : ksize ≤ x.t + 2 * pad) :
    ∃ y, evalLayer3 p (Layer.conv1d cin cout ksize pad) x = .ok y ∧
      y.b = x.b ∧ y.c = cout ∧ y.t = x.t + 2 * pad + 1 - ksize := by
  simp only [evalLayer3]
  rw [if_pos ⟨hc, hk⟩]
  exact ⟨_, rfl, rfl, rfl, rfl⟩

/-- A matching 3-axis batch normalization preserves all extents. -/
theorem evalLayer3_bn_ok (p : LayerParams) (n : Nat) (x : Tbct) (h : x.c = n) :
    ∃ y, evalLayer3 p (Layer.batchNorm1d n) x = .ok y ∧
      y.b = x.b ∧ y.c = x.c ∧ y.t = x.t := by
  simp only [evalLayer3]
  rw [if_pos h]
  exact ⟨_, rfl, rfl, rfl, rfl⟩

/-- 3-axis ReLU preserves all extents. -/
theorem evalLayer3_relu (p : LayerParams) (x : Tbct) :
    evalLayer3 p Layer.relu x = .ok ⟨x.b, x.c, x.t, fun b c t => max (x.entry b c t) 0⟩ := rfl

/-- A matching linear layer evaluates to a tensor of `dout` features. -/
theorem evalLayer2_linear_ok (p : LayerParams) (din dout : Nat) (x : T2) (h : x.f = din) :
    ∃ y, evalLayer2 p (Layer.linear din dout) x = .ok y ∧ y.b = x.b ∧ y.f = dout := by
  simp only [evalLayer2]
  rw [if_pos h]
  exact ⟨_, rfl, rfl, rfl⟩

/-- A matching 2-axis batch normalization preserves all extents. -/
theorem evalLayer2_bn_ok (p : LayerParams) (n : Nat) (x : T2) (h : x.f = n) :
    ∃ y, evalLayer2 p (Layer.batchNorm1d n) x = .ok y ∧ y.b = x.b ∧ y.f = x.f := by
  simp only [evalLayer2]
  rw [if_pos h]
  exact ⟨_, rfl, rfl, rfl⟩

/-- 2-axis ReLU preserves all extents. -/
theorem evalLayer2_relu (p : LayerParams) (x : T2) :
    evalLayer2 p Layer.relu x = .ok ⟨x.b, x.f, fun b f => max (x.entry b f) 0⟩ := rfl

/-- Stepping a 3-axis sequence past a successful layer. -/
theorem evalSeq3_cons_ok (θ : Nat → LayerParams) (l : Layer) (ls : List Layer) (x y : Tbct)
    (h : evalLayer3 (θ 0) l x = .ok y) :
    evalSeq3 θ (l :: ls) x = evalSeq3 (fun n => θ (n + 1)) ls y := by
  simp only [evalSeq3]
  rw [h]

/-- Stepping a 2-axis sequence past a successful layer. -/
theorem evalSeq2_cons_ok (θ : Nat → LayerParams) (l : Layer) (ls : List Layer) (x y : T2)
    (h : evalLayer2 (θ 0) l x = .ok y) :
    evalSeq2 θ (l :: ls) x = evalSeq2 (fun n => θ (n + 1)) ls y := by
  simp only [evalSeq2]
  rw [h]

/-- Evaluating one (convolution, normalization, nonlinearity) triple with
kernel 3 and padding 1: succeeds on any input with matching channels and
length at least 1, preserving batch and length and moving to `w2` channels. -/
theorem evalConvTriple (θ : Nat → LayerParams) (w1 w2 : Nat) (x : Tbct)
    (hc : x.c = w1) (ht : 1 ≤ x.t) :
    ∃ z, evalSeq3 θ [Layer.conv1d w1 w2 3 1, Layer.batchNorm1d w2, Layer.relu] x = .ok z ∧
      z.b = x.b ∧ z.c = w2 ∧ z.t = x.t := by
  obtain ⟨y1, h1, h1b, h1c, h1t⟩ :=
    evalLayer3_conv_ok (θ 0) w1 w2 3 1 x hc (by omega)
  obtain ⟨y2, h2, h2b, h2c, h2t⟩ := evalLayer3_bn_ok (θ 1) w2 y1 (by omega)
  rw [evalSeq3_cons_ok θ _ _ x y1 h1, evalSeq3_cons_ok _ _ _ y1 y2 h2,
    evalSeq3_cons_ok _ _ _ y2 _ (evalLayer3_relu _ y2)]
  exact ⟨_, rfl, by simp [h2b, h1b], by simp [h2c, h1c], by simp [h2t, h1t]⟩

/-- Evaluating one (linear, normalization, nonlinearity) triple: succeeds on
any input with matching features, preserving batch and moving to `w2`
features. -/
theorem evalLinTriple (θ : Nat → LayerParams) (w1 w2 : Nat) (x : T2) (hf : x.f = w1) :
    ∃ z, evalSeq2 θ [Layer.linear w1 w2, Layer.batchNorm1d w2, Layer.relu] x = .ok z ∧
      z.b = x.b ∧ z.f = w2 := by
  obtain ⟨y1, h1, h1b, h1f⟩ := evalLayer2_linear_ok (θ 0) w1 w2 x hf
  obtain ⟨y2, h2, h2b, h2f⟩ := evalLayer2_bn_ok (θ 1) w2 y1 (by omega)
  rw [evalSeq2_cons_ok θ _ _ x y1 h1, evalSeq2_cons_ok _ _ _ y1 y2 h2,
    evalSeq2_cons_ok _ _ _ y2 _ (evalLayer2_relu _ y2)]
  exact ⟨_, rfl, by simp [h2b, h1b], by simp [h2f, h1f]⟩

/-- The convolution stack evaluates successfully on any input whose channel
count matches its first width and whose length is at least 1, preserving batch
and length and ending at the last width. -/
theorem evalConvChain :
    ∀ (ws : List Nat) (θ : Nat → LayerParams) (x : Tbct),
      x.c = ws.headD x.c → 1 ≤ x.t →
      ∃ y, evalSeq3 θ (conv_stack ws) x = .ok y ∧
        y.b = x.b ∧ y.t = x.t ∧ y.c = ws.getLastD x.c := by
  intro ws
  induction ws with
  | nil =>
    intro θ x _ _
    exact ⟨x, rfl, rfl, rfl, rfl⟩
  | cons w1 rest ih =>
    intro θ x hc ht
    cases rest with
    | nil =>
      refine ⟨x, rfl, rfl, rfl, ?_⟩
      simpa using hc
    | cons w2 rest' =>
      simp only [List.headD_cons] at hc
      rw [conv_stack_cons, evalSeq3_append]
      obtain ⟨z, hz, hzb, hzc, hzt⟩ := evalConvTriple θ w1 w2 x hc ht
      rw [hz]
      obtain ⟨y, hy, hyb, hyt, hyc⟩ := ih (fun n => θ (n + 3)) z (by simp [hzc]) (by omega)
      refine ⟨y, ?_, by omega, by omega, ?_⟩
      · simpa using hy
      · rw [hyc]
        simp only [List.getLastD_cons]

/-- The fully-connected stack evaluates successfully on any input whose
feature width matches its first width, preserving batch and ending at the
last width. -/
theorem evalLinChain :
    ∀ (ws : List Nat) (θ : Nat → LayerParams) (x : T2),
      x.f = ws.headD x.f →
      ∃ y, evalSeq2 θ (lin_stack ws) x = .ok y ∧ y.b = x.b ∧ y.f = ws.getLastD x.f := by
  intro ws
  induction ws with
  | nil =>
    intro θ x _
    exact ⟨x, rfl, rfl, rfl⟩
  | cons w1 rest ih =>
    intro θ x hf
    cases rest with
    | nil =>
      refine ⟨x, rfl, rfl, ?_⟩
      simpa using hf
    | cons w2 rest' =>
      simp only [List.headD_cons] at hf
      rw [lin_stack_cons, evalSeq2_append]
      obtain ⟨z, hz, hzb, hzf⟩ := evalLinTriple θ w1 w2 x hf
      rw [hz]
      obtain ⟨y, hy, hyb, hyf⟩ := ih (fun n => θ (n + 3)) z (by simp [hzf])
      refine ⟨y, ?_, by omega, ?_⟩
      · simpa using hy
      · rw [hyf]
        simp only [List.getLastD_cons]

/-- The decoder block evaluates successfully on any input whose feature width
matches its first width, preserving batch and ending at the last width. -/
theorem evalDecChain :
    ∀ (ws : List Nat) (θ : Nat → LayerParams) (x : T2),
      x.f = ws.headD x.f →
      ∃ y, evalSeq2 θ (get_decoder ws) x = .ok y ∧ y.b = x.b ∧ y.f = ws.getLastD x.f := by
  intro ws
  induction ws with
  | nil =>
    intro θ x _
    exact ⟨x, rfl, rfl, rfl⟩
  | cons w1 rest ih =>
    intro θ x hf
    cases rest with
    | nil =>
      refine ⟨x, rfl, rfl, ?_⟩
      simpa using hf
    | cons w2 rest' =>
      simp only [List.headD_cons] at hf
      rw [get_decoder_cons, evalSeq2_append]
      cases rest' with
      | nil =>
        obtain ⟨z, hz, hzb, hzf⟩ := evalLayer2_linear_ok (θ 0) w1 w2 x hf
        have hone : evalSeq2 θ
            ((Layer.linear w1 w2 :: if 0 < List.length ([] : List Nat)
              then [Layer.batchNorm1d w2, Layer.relu] else [])) x = .ok z := by
          simp only [List.length_nil]
          rw [if_neg (by omega), evalSeq2_cons_ok θ _ _ x z hz]
          rfl
        rw [hone]
        exact ⟨z, by simp [get_decoder, evalSeq2], by omega, by simp [hzf]⟩
      | cons w3 rest'' =>
        rw [if_pos (by simp)]
        obtain ⟨z, hz, hzb, hzf⟩ := evalLinTriple θ w1 w2 x hf
        rw [hz]
        obtain ⟨y, hy, hyb, hyf⟩ := ih (fun n => θ (n + 3)) z (by simp [hzf])
        refine ⟨y, ?_, by omega, ?_⟩
        · simpa using hy
        · rw [hyf]
          simp only [List.getLastD_cons]

/-- No 3-axis layer ever produces the embedding index error. -/
theorem evalLayer3_ne_index (p : LayerParams) (l : Layer) (x : Tbct) :
    evalLayer3 p l x ≠ .error .indexOutOfBounds := by
  cases l <;> simp only [evalLayer3] <;> (try split) <;> simp

/-- No 2-axis layer ever produces the embedding index error. -/
theorem evalLayer2_ne_index (p : LayerParams) (l : Layer) (x : T2) :
    evalLayer2 p l x ≠ .error .indexOutOfBounds := by
  cases l <;> simp only [evalLayer2] <;> (try split) <;> simp

/-- No 3-axis sequence ever produces the embedding index error. -/
theorem evalSeq3_ne_index (ls : List Layer) :
    ∀ (θ : Nat → LayerParams) (x : Tbct), evalSeq3 θ ls x ≠ .error .indexOutOfBounds := by
  induction ls with
  | nil => intro θ x; simp [evalSeq3]
  | cons l ls' ih =>
    intro θ x
    simp only [evalSeq3]
    cases h : evalLayer3 (θ 0) l x with
    | error e =>
      have := evalLayer3_ne_index (θ 0) l x
      rw [h] at this
      simpa using fun he => this (by rw [he])
    | ok y => exact ih (fun n => θ (n + 1)) y

/-- No 2-axis sequence ever produces the embedding index error. -/
theorem evalSeq2_ne_index (ls : List Layer) :
    ∀ (θ : Nat → LayerParams) (x : T2), evalSeq2 θ ls x ≠ .error .indexOutOfBounds := by
  induction ls with
  | nil => intro θ x; simp [evalSeq2]
  | cons l ls' ih =>
    intro θ x
    simp only [evalSeq2]
    cases h : evalLayer2 (θ 0) l x with
    | error e =>
      have := evalLayer2_ne_index (θ 0) l x
      rw [h] at this
      simpa using fun he => this (by rw [he])
    | ok y => exact ih (fun n => θ (n + 1)) y

/-- Nothing after the position-encoding step produces the index error. -/
theorem forwardRest_ne_index (θc θl θd : Nat → LayerParams) (m : TempConvModel) (y : T3) :
    forwardRest θc θl θd m y ≠ .error .indexOutOfBounds := by
  simp only [forwardRest]
  cases h3 : evalSeq3 θc m.conv1d (permute021 y) with
  | error e =>
    dsimp only
    intro he
    injection he with he1
    exact evalSeq3_ne_index m.conv1d θc (permute021 y) (by rw [h3, he1])
  | ok out3 =>
    dsimp only
    cases h2 : evalSeq2 θl m.linear (flatten out3) with
    | error e =>
      dsimp only
      intro he
      injection he with he1
      exact evalSeq2_ne_index m.linear θl (flatten out3) (by rw [h2, he1])
    | ok out2 =>
      dsimp only
      exact evalSeq2_ne_index m.decoder θd out2

/-- The raw angle row has one entry per hidden index. -/
theorem get_posi_angle_vec_length (T : ℝ) (d_hid : Nat) (pos : Int) :
    (get_posi_angle_vec T d_hid pos).length = d_hid := by
  simp [get_posi_angle_vec]

/-- The raw angle row holds `cal_angle` at each hidden index. -/
theorem get_posi_angle_vec_getD (T : ℝ) (d_hid : Nat) (pos : Int) (j : Nat) (hj : j < d_hid) :
    (get_posi_angle_vec T d_hid pos).getD j 0 = cal_angle T d_hid pos j := by
  simp [get_posi_angle_vec, List.getD_eq_getElem?_getD, List.getElem?_map,
    List.getElem?_range, hj]

/-- The sine/cosine pass preserves the row length. -/
theorem apply_sin_cos_length (row : List ℝ) : (apply_sin_cos row).length = row.length := by
  simp [apply_sin_cos]

/-- The sine/cosine pass: even columns become `sin`, odd columns `cos`. -/
theorem apply_sin_cos_getD (row : List ℝ) (j : Nat) (hj : j < row.length) :
    (apply_sin_cos row).getD j 0 =
      if j % 2 = 0 then Real.sin (row.getD j 0) else Real.cos (row.getD j 0) := by
  simp [apply_sin_cos, List.getD_eq_getElem?_getD, List.getElem?_mapIdx,
    List.getElem?_eq_getElem, hj]

/-- The encoding table has one row per supplied position. -/
theorem get_sinusoid_encoding_table_length (p : PosArg) (d_hid : Nat) (T : ℝ) :
    (get_sinusoid_encoding_table p d_hid T).length = p.toList.length := by
  simp [get_sinusoid_encoding_table, sinusoid_table_raw]

/-- Row `i` of the encoding table is the sine/cosine pass over the raw angle
row of the `i`-th supplied position. -/
theorem get_sinusoid_encoding_table_row (p : PosArg) (d_hid : Nat) (T : ℝ) (i : Nat)
    (hi : i < p.toList.length) :
    (get_sinusoid_encoding_table p d_hid T).getD i [] =
      apply_sin_cos (get_posi_angle_vec T d_hid (p.toList.getD i 0)) := by
  simp [get_sinusoid_encoding_table, sinusoid_table_raw, List.getD_eq_getElem?_getD,
    List.getElem?_map, List.getElem?_eq_getElem, hi]

/-- Every row of the encoding table has `d_hid` entries. -/
theorem get_sinusoid_encoding_table_row_length (p : PosArg) (d_hid : Nat) (T : ℝ) (i : Nat)
    (hi : i < p.toList.length) :
    ((get_sinusoid_encoding_table p d_hid T).getD i []).length = d_hid := by
  rw [get_sinusoid_encoding_table_row p d_hid T i hi, apply_sin_cos_length,
    get_posi_angle_vec_length]

/-- Entry `(i, j)` of the encoding table. -/
theorem get_sinusoid_encoding_table_entry (p : PosArg) (d_hid : Nat) (T : ℝ) (i j : Nat)
    (hi : i < p.toList.length) (hj : j < d_hid) :
    ((get_sinusoid_encoding_table p d_hid T).getD i []).getD j 0 =
      if j % 2 = 0 then Real.sin (cal_angle T d_hid (p.toList.getD i 0) j)
      else Real.cos (cal_angle T d_hid (p.toList.getD i 0) j) := by
  rw [get_sinusoid_encoding_table_row p d_hid T i hi]
  rw [apply_sin_cos_getD _ j (by rw [get_posi_angle_vec_length]; exact hj)]
  rw [get_posi_angle_vec_getD T d_hid _ j hj]

/-- `headD` with the empty default is `getD 0`. -/
theorem headD_eq_getD_zero {α : Type} (t : List (List α)) : t.headD [] = t.getD 0 [] := by
  cases t <;> rfl

/-- The in-bounds check for `arange(1, L+1)` against a table of `rows` rows
holds exactly when `L ≤ rows - 1`. -/
theorem srcPosInBounds_iff (L rows : Nat) :
    srcPosInBounds L rows = true ↔ L ≤ rows - 1 := by
  simp only [srcPosInBounds, List.all_eq_true, List.mem_map, List.mem_range,
    decide_eq_true_eq]
  constructor
  · intro h
    by_cases hL : L = 0
    · omega
    · have := h L ⟨L - 1, by omega, by omega⟩
      omega
  · intro h i hi
    obtain ⟨x, hx, hxi⟩ := hi
    omega

/-- Successful position-encoding step, written out. -/
theorem encOutput_some (tbl : EmbTable) (x : T3)
    (hb : srcPosInBounds x.t tbl.rows = true) (hw : x.c = tbl.dim ∨ x.c = 1 ∨ tbl.dim = 1) :
    encOutput (some tbl) x = .ok ⟨x.b, x.t, max x.c tbl.dim, fun b t c =>
      x.entry b t (if x.c = 1 then 0 else c) +
        tbl.w (t + 1) (if tbl.dim = 1 then 0 else c)⟩ := by
  simp only [encOutput]
  rw [if_pos hb, if_pos hw]

/-- Failing position-encoding step: some index of `arange(1, L+1)` falls
outside the table. -/
theorem encOutput_some_err (tbl : EmbTable) (x : T3)
    (hb : ¬ srcPosInBounds x.t tbl.rows = true) :
    encOutput (some tbl) x = .error .indexOutOfBounds := by
  simp only [encOutput]
  rw [if_neg hb]

/-- The forward pass after a successful position-encoding step. -/
theorem forward_enc_ok (θc θl θd : Nat → LayerParams) (m : TempConvModel) (x y : T3)
    (h : encOutput m.position_enc x = .ok y) :
    forward θc θl θd m x = forwardRest θc θl θd m y := by
  simp only [forward]
  rw [h]

/-- The forward pass propagates a position-encoding error. -/
theorem forward_enc_err (θc θl θd : Nat → LayerParams) (m : TempConvModel) (x : T3)
    (e : FwdError) (h : encOutput m.position_enc x = .error e) :
    forward θc θl θd m x = .error e := by
  simp only [forward]
  rw [h]

/-- `mkTempConv` with an `nfc` list, written out as the record it returns. -/
theorem mkTempConv_some (iS : Nat) (nker : List Nat) (sL : Nat) (l : List Nat)
    (mlp4 : List Nat) (pos : Option PosArg) :
    mkTempConv iS nker sL (some l) mlp4 pos = .ok
      ⟨iS, sL,
       "TempCNN_" ++ "|".intercalate (nker.map toString) ++ "FC" ++
         "|".intercalate (l.map toString),
       iS :: nker, ((iS :: nker).getLastD 0 * sL) :: l,
       get_decoder mlp4, conv_stack (iS :: nker),
       lin_stack (((iS :: nker).getLastD 0 * sL) :: l),
       pos.map (fun p => tableOfList (get_sinusoid_encoding_table p iS 1000))⟩ := rfl

/-- `mkTempConv` with `nfc=None` raises (`'NoneType' object has no attribute
'insert'`). -/
theorem mkTempConv_none (iS : Nat) (nker : List Nat) (sL : Nat) (mlp4 : List Nat)
    (pos : Option PosArg) :
    mkTempConv iS nker sL none mlp4 pos = .error .noneNfcInsert := rfl

/-- C1: for every positive `hidden_dim`, base `T` and positions argument,
`get_sinusoid_encoding_table` has one row per position, every row has
`hidden_dim` entries, entry `(p, j)` is `sin(pos_p / T^(2*(j/2)/hidden_dim))`
for even `j` and `cos` of the same angle for odd `j`, and any row whose
position is `0` is the alternating `sin(0)=0` / `cos(0)=1` pattern. -/
theorem claim1_sinusoid_table (positions : PosArg) (d_hid : Nat) (T : ℝ) (_hd : 0 < d_hid) :
    (get_sinusoid_encoding_table positions d_hid T).length = positions.toList.length ∧
    (∀ i, i < positions.toList.length →
      ((get_sinusoid_encoding_table positions d_hid T).getD i []).length = d_hid) ∧
    (∀ i j, i < positions.toList.length → j < d_hid →
      ((get_sinusoid_encoding_table positions d_hid T).getD i []).getD j 0 =
        if j % 2 = 0 then
          Real.sin ((positions.toList.getD i 0 : ℝ) /
            T ^ (((2 * (j / 2) : Nat) : ℝ) / (d_hid : ℝ)))
        else
          Real.cos ((positions.toList.getD i 0 : ℝ) /
            T ^ (((2 * (j / 2) : Nat) : ℝ) / (d_hid : ℝ)))) ∧
    (∀ i j, i < positions.toList.length → j < d_hid → positions.toList.getD i 0 = 0 →
      ((get_sinusoid_encoding_table positions d_hid T).getD i []).getD j 0 =
        if j % 2 = 0 then 0 else 1) := by
  refine ⟨get_sinusoid_encoding_table_length positions d_hid T, ?_, ?_, ?_⟩
  · intro i hi
    exact get_sinusoid_encoding_table_row_length positions d_hid T i hi
  · intro i j hi hj
    rw [get_sinusoid_encoding_table_entry positions d_hid T i j hi hj]
    simp only [cal_angle]
  · intro i j hi hj h0
    rw [get_sinusoid_encoding_table_entry positions d_hid T i j hi hj, h0]
    split <;> simp [cal_angle]

/-- Witness for C1 at `positions = int 2`, `hidden_dim = 2`, `T = 1000`. -/
theorem claim1_sinusoid_table_witness :
    0 < 2 ∧
    ((get_sinusoid_encoding_table (PosArg.int 2) 2 1000).length =
        (PosArg.int 2).toList.length ∧
    (∀ i, i < (PosArg.int 2).toList.length →
      ((get_sinusoid_encoding_table (PosArg.int 2) 2 1000).getD i []).length = 2) ∧
    (∀ i j, i < (PosArg.int 2).toList.length → j < 2 →
      ((get_sinusoid_encoding_table (PosArg.int 2) 2 1000).getD i []).getD j 0 =
        if j % 2 = 0 then
          Real.sin (((PosArg.int 2).toList.getD i 0 : ℝ) /
            (1000 : ℝ) ^ (((2 * (j / 2) : Nat) : ℝ) / ((2 : Nat) : ℝ)))
        else
          Real.cos (((PosArg.int 2).toList.getD i 0 : ℝ) /
            (1000 : ℝ) ^ (((2 * (j / 2) : Nat) : ℝ) / ((2 : Nat) : ℝ)))) ∧
    (∀ i j, i < (PosArg.int 2).toList.length → j < 2 → (PosArg.int 2).toList.getD i 0 = 0 →
      ((get_sinusoid_encoding_table (PosArg.int 2) 2 1000).getD i []).getD j 0 =
        if j % 2 = 0 then 0 else 1)) :=
  ⟨by decide, claim1_sinusoid_table (PosArg.int 2) 2 1000 (by decide)⟩

/-- C2: for widths of length `L ≥ 2`, `get_decoder` yields one chunk per
adjacent pair: transform `i` maps `widths[i]` to `widths[i+1]`, the first
`L-2` transforms are each immediately followed by a normalization over the
output width and a ReLU, the final one by nothing; the number of affine
transforms is exactly `L - 1`. -/
theorem claim2_get_decoder (n_neurons : List Nat) (_h2 : 2 ≤ n_neurons.length) :
    get_decoder n_neurons = (List.range (n_neurons.length - 1)).flatMap (fun i =>
      Layer.linear (n_neurons.getD i 0) (n_neurons.getD (i + 1) 0) ::
        (if i < n_neurons.length - 2
         then [Layer.batchNorm1d (n_neurons.getD (i + 1) 0), Layer.relu] else [])) ∧
    (get_decoder n_neurons).countP
      (fun l => match l with | .linear _ _ => true | _ => false) = n_neurons.length - 1 := by
  refine ⟨get_decoder_eq_flatMap n_neurons, ?_⟩
  rw [get_decoder_eq_flatMap n_neurons]
  have key : ∀ (L : List Nat),
      (L.flatMap (fun i =>
        Layer.linear (n_neurons.getD i 0) (n_neurons.getD (i + 1) 0) ::
          (if i < n_neurons.length - 2
           then [Layer.batchNorm1d (n_neurons.getD (i + 1) 0), Layer.relu] else []))).countP
        (fun l => match l with | .linear _ _ => true | _ => false) = L.length := by
    intro L
    induction L with
    | nil => rfl
    | cons a t iht =>
      rw [List.flatMap_cons, List.countP_append, iht]
      by_cases h : a < n_neurons.length - 2 <;> simp [h, List.countP_cons] <;> omega
  rw [key, List.length_range]

/-- Witness for C2 at widths `[4, 3, 2]`. -/
theorem claim2_get_decoder_witness :
    2 ≤ ([4, 3, 2] : List Nat).length ∧
    (get_decoder [4, 3, 2] = (List.range (([4, 3, 2] : List Nat).length - 1)).flatMap (fun i =>
      Layer.linear (([4, 3, 2] : List Nat).getD i 0) (([4, 3, 2] : List Nat).getD (i + 1) 0) ::
        (if i < ([4, 3, 2] : List Nat).length - 2
         then [Layer.batchNorm1d (([4, 3, 2] : List Nat).getD (i + 1) 0), Layer.relu]
         else [])) ∧
    (get_decoder [4, 3, 2]).countP
      (fun l => match l with | .linear _ _ => true | _ => false)
        = ([4, 3, 2] : List Nat).length - 1) :=
  ⟨by decide, claim2_get_decoder [4, 3, 2] (by decide)⟩

/-- C3: in every constructed model the convolution stack is one
(convolution kernel 3 padding 1, normalization, ReLU) triple per adjacent
pair of `input_size :: nker`, and the fully-connected stack is one
(linear, normalization, ReLU) triple per adjacent pair of
`(last_conv_channels * seq_len) :: nfc` — every transform, including the last
of each stack, is followed by normalization and ReLU. -/
theorem claim3_always_norm_stacks (iS : Nat) (nker : List Nat) (sL : Nat) (l : List Nat)
    (mlp4 : List Nat) (pos : Option PosArg) :
    (mkTempConv iS nker sL (some l) mlp4 pos).map (fun m => m.conv1d) =
      .ok ((List.range ((iS :: nker).length - 1)).flatMap (fun i =>
        [Layer.conv1d ((iS :: nker).getD i 0) ((iS :: nker).getD (i + 1) 0) 3 1,
         Layer.batchNorm1d ((iS :: nker).getD (i + 1) 0), Layer.relu])) ∧
    (mkTempConv iS nker sL (some l) mlp4 pos).map (fun m => m.linear) =
      .ok ((List.range (((nker.getLastD iS * sL) :: l).length - 1)).flatMap (fun i =>
        [Layer.linear (((nker.getLastD iS * sL) :: l).getD i 0)
           (((nker.getLastD iS * sL) :: l).getD (i + 1) 0),
         Layer.batchNorm1d (((nker.getLastD iS * sL) :: l).getD (i + 1) 0), Layer.relu])) := by
  rw [mkTempConv_some]
  constructor
  · simp only [Except.map]
    rw [conv_stack_eq_flatMap]
  · simp only [Except.map]
    rw [lin_stack_eq_flatMap, List.getLastD_cons]

/-- C8: the caller's `nker`/`nfc` are not observably mutated (the model's
internal copies get exactly one width inserted at position 0), and the name
string is built from the original pre-insertion values:
prefix, `nker` joined by `|`, then an `FC` marker and `nfc` joined by `|`. -/
theorem claim8_name_and_copies (iS : Nat) (nker : List Nat) (sL : Nat) (l : List Nat)
    (mlp4 : List Nat) (pos : Option PosArg) :
    (mkTempConv iS nker sL (some l) mlp4 pos).map (fun m => m.name) =
      .ok ("TempCNN_" ++ "|".intercalate (nker.map toString) ++ "FC" ++
        "|".intercalate (l.map toString)) ∧
    (mkTempConv iS nker sL (some l) mlp4 pos).map (fun m => m.nker) = .ok (iS :: nker) ∧
    (mkTempConv iS nker sL (some l) mlp4 pos).map (fun m => m.nfc) =
      .ok ((nker.getLastD iS * sL) :: l) := by
  rw [mkTempConv_some]
  refine ⟨rfl, rfl, ?_⟩
  simp only [Except.map]
  rw [List.getLastD_cons]

/-- C6 counterexample: construction with empty `nker` AND `mlp4` of length
less than 2 succeeds (returning a model with empty convolution stack and
empty decoder) instead of failing — the constructor performs no validation. -/
theorem claim6_counterexample :
    mkTempConv 3 [] 4 (some [5]) [] none = .ok
      ⟨3, 4, "TempCNN_FC5", [3], [12, 5], [], [],
       [Layer.linear 12 5, Layer.batchNorm1d 5, Layer.relu], none⟩ := by
  rfl

/-- C6 amended: construction never fails when `nfc` is a list; empty `nker`
silently yields an empty convolution stack, `mlp4` shorter than 2 silently
yields an empty decoder, and a position-table width mismatch cannot arise
because the table is always built with `hidden_dim = input_size` (its width
equals `input_size` whenever `positions` is a positive count). -/
theorem claim6_amended_no_validation (iS : Nat) (nker : List Nat) (sL : Nat) (l : List Nat)
    (mlp4 : List Nat) (pos : Option PosArg) :
    (mkTempConv iS nker sL (some l) mlp4 pos).isOk = true ∧
    (nker = [] → (mkTempConv iS nker sL (some l) mlp4 pos).map (fun m => m.conv1d) = .ok []) ∧
    (mlp4.length < 2 →
      (mkTempConv iS nker sL (some l) mlp4 pos).map (fun m => m.decoder) = .ok []) ∧
    (∀ N, 0 < N → (mkTempConv iS nker sL (some l) mlp4 (some (PosArg.int N))).map
      (fun m => m.position_enc.map (fun tbl => tbl.dim)) = .ok (some iS)) := by
  refine ⟨by rw [mkTempConv_some]; rfl, ?_, ?_, ?_⟩
  · intro h
    subst h
    rw [mkTempConv_some]
    rfl
  · intro h
    rw [mkTempConv_some]
    simp only [Except.map]
    have hdec : get_decoder mlp4 = [] := by
      cases mlp4 with
      | nil => rfl
      | cons a t =>
        cases t with
        | nil => rfl
        | cons b t' =>
          exact absurd h (by simp only [List.length_cons]; omega)
    rw [hdec]
  · intro N hN
    rw [mkTempConv_some]
    have hrows : (PosArg.int N).toList.length = N := by simp [PosArg.toList]
    have hdim : (tableOfList (get_sinusoid_encoding_table (PosArg.int N) iS 1000)).dim = iS := by
      show ((get_sinusoid_encoding_table (PosArg.int N) iS 1000).headD []).length = iS
      rw [headD_eq_getD_zero]
      exact get_sinusoid_encoding_table_row_length (PosArg.int N) iS 1000 0 (by omega)
    simp [Except.map, hdim]

/-- Witness for C6 amended: a concrete invalid-per-the-claim configuration
that is accepted, with the stated degenerate stacks and table width. -/
theorem claim6_amended_witness :
    (mkTempConv 3 [] 4 (some [5]) [6] none).map (fun m => m.conv1d) = .ok [] ∧
    (mkTempConv 3 [] 4 (some [5]) [] none).map (fun m => m.decoder) = .ok [] ∧
    (mkTempConv 3 [] 4 (some [5]) [6] (some (PosArg.int 2))).map
      (fun m => m.position_enc.map (fun tbl => tbl.dim)) = .ok (some 3) :=
  ⟨(claim6_amended_no_validation 3 [] 4 [5] [6] none).2.1 rfl,
   (claim6_amended_no_validation 3 [] 4 [5] [] none).2.2.1 (by decide),
   (claim6_amended_no_validation 3 [] 4 [5] [6] (some (PosArg.int 2))).2.2.2 2 (by decide)⟩

/-- C9: construction with `nfc=None` ("absent") raises the `AttributeError`
from `self.nfc.insert(0, ...)` instead of succeeding; with `nfc=[]` (empty)
construction does succeed, the fully-connected stack degenerates to zero
transforms, and an empty layer sequence passes its input through unchanged. -/
theorem claim9_nfc_none_crashes :
    mkTempConv 3 [8] 5 none [40, 2] none = .error .noneNfcInsert ∧
    (mkTempConv 3 [8] 5 (some []) [40, 2] none).map (fun m => m.linear) = .ok [] ∧
    (∀ (θ : Nat → LayerParams) (x : T2), evalSeq2 θ [] x = .ok x) :=
  ⟨rfl, rfl, fun _ _ => rfl⟩

/-- C4: with position encoding enabled and in-bounds, matching input, the
forward pass first adds to the raw input — elementwise, broadcast over the
batch — the table rows at 1-indexed positions (row `t+1` for time step `t`,
row 0 never used), and hands exactly that sum to the convolution pipeline;
with encoding disabled the input reaches the convolution pipeline
unchanged. -/
theorem claim4_position_add (θc θl θd : Nat → LayerParams) (m : TempConvModel) (x : T3)
    (tbl : EmbTable) (henc : m.position_enc = some tbl)
    (hb : srcPosInBounds x.t tbl.rows = true) (hw : x.c = tbl.dim) :
    (∃ y, encOutput m.position_enc x = .ok y ∧
      y.b = x.b ∧ y.t = x.t ∧ y.c = tbl.dim ∧
      (∀ b t c, c < tbl.dim → y.entry b t c = x.entry b t c + tbl.w (t + 1) c) ∧
      forward θc θl θd m x = forwardRest θc θl θd m y) ∧
    (∀ m2 : TempConvModel, m2.position_enc = none →
      encOutput m2.position_enc x = .ok x ∧
      forward θc θl θd m2 x = forwardRest θc θl θd m2 x) := by
  constructor
  · have hok : encOutput m.position_enc x = .ok ⟨x.b, x.t, max x.c tbl.dim, fun b t c =>
        x.entry b t (if x.c = 1 then 0 else c) +
          tbl.w (t + 1) (if tbl.dim = 1 then 0 else c)⟩ := by
      rw [henc]
      exact encOutput_some tbl x hb (Or.inl hw)
    refine ⟨_, hok, rfl, rfl, by simp [hw], ?_, forward_enc_ok θc θl θd m x _ hok⟩
    intro b t c hc
    by_cases h1 : x.c = 1
    · have hd1 : tbl.dim = 1 := by omega
      have hc0 : c = 0 := by omega
      simp [h1, hd1, hc0]
    · have hd1 : ¬ tbl.dim = 1 := by omega
      simp [h1, hd1]
  · intro m2 h2
    have hok : encOutput m2.position_enc x = .ok x := by
      rw [h2]
      rfl
    exact ⟨hok, forward_enc_ok θc θl θd m2 x x hok⟩

/-- Witness for C4: a model built with `positions = int 2`, `input_size = 1`,
and a (1,1,1) zero input; and the encoding-disabled pass-through at a model
built without positions. -/
theorem claim4_position_add_witness :
    ((⟨1, 1, "TempCNN_FC", [1], [1], [], [], [],
        some (tableOfList (get_sinusoid_encoding_table (PosArg.int 2) 1 1000))⟩ :
        TempConvModel).position_enc =
      some (tableOfList (get_sinusoid_encoding_table (PosArg.int 2) 1 1000))) ∧
    (srcPosInBounds (1 : Nat)
      (tableOfList (get_sinusoid_encoding_table (PosArg.int 2) 1 1000)).rows = true) ∧
    ((1 : Nat) = (tableOfList (get_sinusoid_encoding_table (PosArg.int 2) 1 1000)).dim) ∧
    (∃ y, encOutput (some (tableOfList (get_sinusoid_encoding_table (PosArg.int 2) 1 1000)))
        ⟨1, 1, 1, fun _ _ _ => 0⟩ = .ok y ∧
      y.b = 1 ∧ y.t = 1 ∧
      y.c = (tableOfList (get_sinusoid_encoding_table (PosArg.int 2) 1 1000)).dim ∧
      (∀ b t c, c < (tableOfList (get_sinusoid_encoding_table (PosArg.int 2) 1 1000)).dim →
        y.entry b t c = (0 : ℝ) +
          (tableOfList (get_sinusoid_encoding_table (PosArg.int 2) 1 1000)).w (t + 1) c) ∧
      forward (fun _ => defaultParams) (fun _ => defaultParams) (fun _ => defaultParams)
          (⟨1, 1, "TempCNN_FC", [1], [1], [], [], [],
            some (tableOfList (get_sinusoid_encoding_table (PosArg.int 2) 1 1000))⟩ :
            TempConvModel) ⟨1, 1, 1, fun _ _ _ => 0⟩ =
        forwardRest (fun _ => defaultParams) (fun _ => defaultParams) (fun _ => defaultParams)
          (⟨1, 1, "TempCNN_FC", [1], [1], [], [], [],
            some (tableOfList (get_sinusoid_encoding_table (PosArg.int 2) 1 1000))⟩ :
            TempConvModel) y) :=
  ⟨rfl, rfl, rfl,
    (claim4_position_add (fun _ => defaultParams) (fun _ => defaultParams)
      (fun _ => defaultParams)
      (⟨1, 1, "TempCNN_FC", [1], [1], [], [], [],
        some (tableOfList (get_sinusoid_encoding_table (PosArg.int 2) 1 1000))⟩ :
        TempConvModel)
      ⟨1, 1, 1, fun _ _ _ => 0⟩
      (tableOfList (get_sinusoid_encoding_table (PosArg.int 2) 1 1000))
      rfl rfl rfl).1⟩

/-- C5: the forward pass reads the sequence length off the input tensor (the
configured `seq_len` is never consulted: changing it changes nothing); a model
built with `positions = N` has a table of exactly `N` rows; the lookup at
indices `1..L` is in bounds iff `L ≤ N - 1`; hence a model built with
`positions = seq_len` fails with the embedding index error on a forward call
at the configured sequence length itself. -/
theorem claim5_seq_len_off_by_one (iS : Nat) (nker : List Nat) (sL : Nat) (l : List Nat)
    (mlp4 : List Nat) (N : Nat) (m : TempConvModel) (θc θl θd : Nat → LayerParams) (x : T3)
    (hm : mkTempConv iS nker sL (some l) mlp4 (some (PosArg.int N)) = .ok m) :
    (∀ s, forward θc θl θd { m with seq_len := s } x = forward θc θl θd m x) ∧
    (∀ tbl, m.position_enc = some tbl → tbl.rows = N) ∧
    (srcPosInBounds x.t N = true ↔ x.t ≤ N - 1) ∧
    (N = sL → x.t = sL → 1 ≤ sL → forward θc θl θd m x = .error .indexOutOfBounds) := by
  rw [mkTempConv_some] at hm
  injection hm with hm
  subst hm
  refine ⟨fun s => rfl, ?_, srcPosInBounds_iff x.t N, ?_⟩
  · intro tbl htbl
    simp only [Option.map_some] at htbl
    injection htbl with htbl
    rw [← htbl]
    show (get_sinusoid_encoding_table (PosArg.int N) iS 1000).length = N
    rw [get_sinusoid_encoding_table_length]
    simp [PosArg.toList]
  · intro hNs hxs hs1
    have hrows : (tableOfList (get_sinusoid_encoding_table (PosArg.int N) iS 1000)).rows
        = N := by
      show (get_sinusoid_encoding_table (PosArg.int N) iS 1000).length = N
      rw [get_sinusoid_encoding_table_length]
      simp [PosArg.toList]
    have herr : encOutput (some (tableOfList
        (get_sinusoid_encoding_table (PosArg.int N) iS 1000))) x =
        .error .indexOutOfBounds := by
      apply encOutput_some_err
      rw [hrows, srcPosInBounds_iff]
      omega
    exact forward_enc_err θc θl θd _ x _ herr

/-- Witness for C5: `positions = seq_len = 2`, a correctly shaped (1,2,1)
input; changing the stored `seq_len` to 7 changes nothing, the bounds check
reads `2 ≤ 2 - 1` (false), and the forward call fails with the index error. -/
theorem claim5_seq_len_off_by_one_witness :
    (mkTempConv 1 [] 2 (some []) [] (some (PosArg.int 2)) = .ok
      (⟨1, 2, "TempCNN_FC", [1], [2], [], [], [],
        some (tableOfList (get_sinusoid_encoding_table (PosArg.int 2) 1 1000))⟩ :
        TempConvModel)) ∧
    (forward (fun _ => defaultParams) (fun _ => defaultParams) (fun _ => defaultParams)
      { (⟨1, 2, "TempCNN_FC", [1], [2], [], [], [],
          some (tableOfList (get_sinusoid_encoding_table (PosArg.int 2) 1 1000))⟩ :
          TempConvModel) with seq_len := 7 } ⟨1, 2, 1, fun _ _ _ => 0⟩ =
      forward (fun _ => defaultParams) (fun _ => defaultParams) (fun _ => defaultParams)
        (⟨1, 2, "TempCNN_FC", [1], [2], [], [], [],
          some (tableOfList (get_sinusoid_encoding_table (PosArg.int 2) 1 1000))⟩ :
          TempConvModel) ⟨1, 2, 1, fun _ _ _ => 0⟩) ∧
    (srcPosInBounds 2 2 = true ↔ (2 : Nat) ≤ 2 - 1) ∧
    (forward (fun _ => defaultParams) (fun _ => defaultParams) (fun _ => defaultParams)
      (⟨1, 2, "TempCNN_FC", [1], [2], [], [], [],
        some (tableOfList (get_sinusoid_encoding_table (PosArg.int 2) 1 1000))⟩ :
        TempConvModel) ⟨1, 2, 1, fun _ _ _ => 0⟩ = .error .indexOutOfBounds) :=
  ⟨rfl,
   (claim5_seq_len_off_by_one 1 [] 2 [] [] 2 _ (fun _ => defaultParams)
     (fun _ => defaultParams) (fun _ => defaultParams) ⟨1, 2, 1, fun _ _ _ => 0⟩ rfl).1 7,
   (claim5_seq_len_off_by_one 1 [] 2 [] [] 2 _ (fun _ => defaultParams)
     (fun _ => defaultParams) (fun _ => defaultParams) ⟨1, 2, 1, fun _ _ _ => 0⟩ rfl).2.2.1,
   (claim5_seq_len_off_by_one 1 [] 2 [] [] 2 _ (fun _ => defaultParams)
     (fun _ => defaultParams) (fun _ => defaultParams) ⟨1, 2, 1, fun _ _ _ => 0⟩ rfl).2.2.2
     rfl rfl (by decide)⟩

/-- C7 counterexample: a model built with `positions = seq_len = 2` and
`input_size = 2` fails on a forward call with a CORRECTLY shaped (1, 2, 2)
input — the claim that there are no error conditions at forward time for
correctly-shaped input is false (the lookup at index 2 exceeds the 2-row
table). -/
theorem claim7_counterexample :
    mkTempConv 2 [3] 2 (some []) [6, 4] (some (PosArg.int 2)) = .ok
      (⟨2, 2, "TempCNN_3FC", [2, 3], [6],
        [Layer.linear 6 4],
        [Layer.conv1d 2 3 3 1, Layer.batchNorm1d 3, Layer.relu], [],
        some (tableOfList (get_sinusoid_encoding_table (PosArg.int 2) 2 1000))⟩ :
        TempConvModel) ∧
    forward (fun _ => defaultParams) (fun _ => defaultParams) (fun _ => defaultParams)
      (⟨2, 2, "TempCNN_3FC", [2, 3], [6],
        [Layer.linear 6 4],
        [Layer.conv1d 2 3 3 1, Layer.batchNorm1d 3, Layer.relu], [],
        some (tableOfList (get_sinusoid_encoding_table (PosArg.int 2) 2 1000))⟩ :
        TempConvModel) ⟨1, 2, 2, fun _ _ _ => 0⟩ = .error .indexOutOfBounds := by
  constructor
  · rfl
  · apply forward_enc_err
    apply encOutput_some_err
    rw [srcPosInBounds_iff]
    show ¬ ((2 : Nat) ≤ (get_sinusoid_encoding_table (PosArg.int 2) 2 1000).length - 1)
    rw [get_sinusoid_encoding_table_length]
    simp [PosArg.toList]

/-- C7 amended: on a model with position encoding built from `positions = N`
(`N ≥ 1`) and an input whose trailing dimension equals `input_size`, the
forward call fails with the embedding index error exactly when the input's
sequence length `L` exceeds `N - 1`; in particular `positions = 5` fails at
sequence length 7, and a correctly shaped input (`L = seq_len`) fails
whenever `N ≤ seq_len`.  Errors are returned values: the model, a pure
value, is unchanged. -/
theorem claim7_amended_index_error (iS : Nat) (nker : List Nat) (sL : Nat) (l : List Nat)
    (mlp4 : List Nat) (N : Nat) (m : TempConvModel) (θc θl θd : Nat → LayerParams) (x : T3)
    (hm : mkTempConv iS nker sL (some l) mlp4 (some (PosArg.int N)) = .ok m)
    (hc : x.c = iS) (hN : 0 < N) :
    forward θc θl θd m x = .error .indexOutOfBounds ↔ ¬ (x.t ≤ N - 1) := by
  rw [mkTempConv_some] at hm
  injection hm with hm
  subst hm
  have hrows : (tableOfList (get_sinusoid_encoding_table (PosArg.int N) iS 1000)).rows
      = N := by
    show (get_sinusoid_encoding_table (PosArg.int N) iS 1000).length = N
    rw [get_sinusoid_encoding_table_length]
    simp [PosArg.toList]
  have hdim : (tableOfList (get_sinusoid_encoding_table (PosArg.int N) iS 1000)).dim
      = iS := by
    show ((get_sinusoid_encoding_table (PosArg.int N) iS 1000).headD []).length = iS
    rw [headD_eq_getD_zero]
    apply get_sinusoid_encoding_table_row_length
    simp [PosArg.toList]
    omega
  by_cases hle : x.t ≤ N - 1
  · simp only [hle, not_true_eq_false, iff_false]
    have hbnd : srcPosInBounds x.t
        (tableOfList (get_sinusoid_encoding_table (PosArg.int N) iS 1000)).rows = true := by
      rw [hrows, srcPosInBounds_iff]
      exact hle
    have hok := encOutput_some (tableOfList (get_sinusoid_encoding_table (PosArg.int N)
      iS 1000)) x hbnd (Or.inl (by omega))
    rw [forward_enc_ok θc θl θd _ x _ hok]
    apply forwardRest_ne_index
  · simp only [hle, not_false_eq_true, iff_true]
    apply forward_enc_err
    apply encOutput_some_err
    rw [hrows, srcPosInBounds_iff]
    exact hle

/-- Witness for C7 amended: `positions = 5`, forward at sequence length 7
fails (7 exceeds 5 - 1). -/
theorem claim7_amended_index_error_witness :
    (mkTempConv 1 [] 7 (some []) [] (some (PosArg.int 5)) = .ok
      (⟨1, 7, "TempCNN_FC", [1], [7], [], [], [],
        some (tableOfList (get_sinusoid_encoding_table (PosArg.int 5) 1 1000))⟩ :
        TempConvModel)) ∧
    ((1 : Nat) = 1) ∧ (0 < 5) ∧
    (forward (fun _ => defaultParams) (fun _ => defaultParams) (fun _ => defaultParams)
      (⟨1, 7, "TempCNN_FC", [1], [7], [], [], [],
        some (tableOfList (get_sinusoid_encoding_table (PosArg.int 5) 1 1000))⟩ :
        TempConvModel) ⟨1, 7, 1, fun _ _ _ => 0⟩ = .error .indexOutOfBounds ↔
      ¬ ((7 : Nat) ≤ 5 - 1)) :=
  ⟨rfl, rfl, by decide,
   claim7_amended_index_error 1 [] 7 [] [] 5 _ (fun _ => defaultParams)
     (fun _ => defaultParams) (fun _ => defaultParams) ⟨1, 7, 1, fun _ _ _ => 0⟩
     rfl rfl (by decide)⟩

/-- C10: on a correctly shaped input batch (B, seq_len, input_size), with the
position table adequate when enabled and the decoder width list starting at
the fully-connected output width, the forward pass succeeds and returns a
batch of shape (B, mlp4[-1]) — in particular the batch size is preserved. -/
theorem claim10_forward_shape (iS : Nat) (nker : List Nat) (sL : Nat) (l : List Nat)
    (mlp4 : List Nat) (pos : Option PosArg) (m : TempConvModel)
    (θc θl θd : Nat → LayerParams) (x : T3)
    (hm : mkTempConv iS nker sL (some l) mlp4 pos = .ok m)
    (hxt : x.t = sL) (hxc : x.c = iS) (hs1 : 1 ≤ sL)
    (hpos : ∀ tbl, m.position_enc = some tbl →
      srcPosInBounds x.t tbl.rows = true ∧ tbl.dim = x.c)
    (hmlp : mlp4 ≠ [])
    (hfit : mlp4.headD 0 = l.getLastD (nker.getLastD iS * sL)) :
    ∃ y, forward θc θl θd m x = .ok y ∧ y.b = x.b ∧ y.f = mlp4.getLastD 0 := by
  rw [mkTempConv_some] at hm
  injection hm with hm
  subst hm
  have hstep1 : ∃ y0, encOutput
      (pos.map (fun p => tableOfList (get_sinusoid_encoding_table p iS 1000))) x = .ok y0 ∧
      y0.b = x.b ∧ y0.t = x.t ∧ y0.c = x.c := by
    cases pos with
    | none => exact ⟨x, rfl, rfl, rfl, rfl⟩
    | some p =>
      obtain ⟨hb, hd⟩ := hpos (tableOfList (get_sinusoid_encoding_table p iS 1000)) rfl
      have hok := encOutput_some (tableOfList (get_sinusoid_encoding_table p iS 1000)) x hb
        (Or.inl hd.symm)
      refine ⟨_, hok, rfl, rfl, ?_⟩
      show max x.c (tableOfList (get_sinusoid_encoding_table p iS 1000)).dim = x.c
      rw [hd]
      exact Nat.max_self x.c
  obtain ⟨y0, henc, hy0b, hy0t, hy0c⟩ := hstep1
  rw [forward_enc_ok θc θl θd _ x y0 henc]
  obtain ⟨o3, h3, h3b, h3t, h3c⟩ := evalConvChain (iS :: nker) θc (permute021 y0)
    (by rw [List.headD_cons]; show y0.c = iS; omega)
    (by show 1 ≤ y0.t; omega)
  have hpb : (permute021 y0).b = y0.b := rfl
  have hpt : (permute021 y0).t = y0.t := rfl
  rw [List.getLastD_cons] at h3c
  have h3c' : o3.c = nker.getLastD iS := h3c
  simp only [forwardRest]
  rw [h3]
  dsimp only
  have hf2 : (flatten o3).f = (((iS :: nker).getLastD 0 * sL) :: l).headD (flatten o3).f := by
    rw [List.headD_cons, List.getLastD_cons]
    show o3.c * o3.t = nker.getLastD iS * sL
    rw [h3c']
    have : o3.t = sL := by omega
    rw [this]
  obtain ⟨o2, h2, h2b, h2f⟩ :=
    evalLinChain (((iS :: nker).getLastD 0 * sL) :: l) θl (flatten o3) hf2
  have hfb : (flatten o3).b = o3.b := rfl
  rw [h2]
  dsimp only
  rw [List.getLastD_cons, List.getLastD_cons] at h2f
  have hdf : o2.f = mlp4.headD o2.f := by
    cases mlp4 with
    | nil => exact absurd rfl hmlp
    | cons a t =>
      rw [List.headD_cons]
      rw [List.headD_cons] at hfit
      omega
  obtain ⟨yf, hdc, hdb, hdff⟩ := evalDecChain mlp4 θd o2 hdf
  refine ⟨yf, hdc, by omega, ?_⟩
  cases mlp4 with
  | nil => exact absurd rfl hmlp
  | cons a t =>
    rw [List.getLastD_cons] at hdff
    rw [List.getLastD_cons]
    exact hdff

/-- Witness for C10: a concrete model (`input_size=1`, `nker=[1]`,
`seq_len=1`, `nfc=[]`, `mlp4=[1,2]`, no positions) on a (4, 1, 1) zero batch
returns a (4, 2) batch. -/
theorem claim10_forward_shape_witness :
    (mkTempConv 1 [1] 1 (some []) [1, 2] none = .ok
      (⟨1, 1, "TempCNN_1FC", [1, 1], [1],
        [Layer.linear 1 2],
        [Layer.conv1d 1 1 3 1, Layer.batchNorm1d 1, Layer.relu], [],
        none⟩ : TempConvModel)) ∧
    (∃ y, forward (fun _ => defaultParams) (fun _ => defaultParams) (fun _ => defaultParams)
      (⟨1, 1, "TempCNN_1FC", [1, 1], [1],
        [Layer.linear 1 2],
        [Layer.conv1d 1 1 3 1, Layer.batchNorm1d 1, Layer.relu], [],
        none⟩ : TempConvModel) ⟨4, 1, 1, fun _ _ _ => 0⟩ = .ok y ∧
      y.b = 4 ∧ y.f = 2) :=
  ⟨rfl,
   claim10_forward_shape 1 [1] 1 [] [1, 2] none _
     (fun _ => defaultParams) (fun _ => defaultParams) (fun _ => defaultParams)
     ⟨4, 1, 1, fun _ _ _ => 0⟩ rfl rfl rfl (by decide)
     (fun tbl h => Option.noConfusion h) (by decide) rfl⟩
